import Mathlib

/-!
Verification of `subsys/bluetooth/host/settings.c` (Zephyr Bluetooth host
settings codec and bootstrap coordinator).

Modelling conventions
=====================
* C strings are modelled as `List Char` holding the characters **before** the
  terminating NUL; consequently such lists contain no NUL character (theorems
  carry explicit nul-freeness hypotheses where the property depends on it).
* Byte buffers written by the settings `read_cb` are `List Nat` (each entry a
  byte value).
* The output path buffer of `bt_settings_encode_key` is a `List Char` of
  length `path_size`; every store into it is a `List.set` at an index the C
  code has bounds-checked, so the buffer length is invariant.
* Machine integers: `ssize_t` values are `Int`; `size_t` values are `Nat`.
  The C comparison `len < sizeof(...)` with `ssize_t len` converts `len` to
  `size_t` (usual arithmetic conversions, both operands of equal rank, as on
  the 32-bit targets this subsystem is built for), modelled by `toSizeT`
  with a 32-bit `size_t`.
* The parts of the repository that this file needs but that are not under
  `src/` (the settings store callbacks' contracts, `struct bt_dev`, the
  identity-generation collaborators, `bt_set_name`, `bt_finalize_init`) are
  modelled from the spec; each such definition carries a doc comment saying
  so.
-/

namespace ZephyrBtSettings

/-- The NUL character terminating C strings. -/
def nul : Char := Char.ofNat 0

/-- `-EINVAL` (newlib/Zephyr: `EINVAL = 22`). -/
def EINVAL : Int := 22

/-- `-ENOENT` (newlib/Zephyr: `ENOENT = 2`). -/
def ENOENT : Int := 2

/-- `BT_ADDR_LE_PUBLIC` (value 0). -/
def BT_ADDR_LE_PUBLIC : Nat := 0

/-- `BT_ADDR_LE_RANDOM` (value 1). -/
def BT_ADDR_LE_RANDOM : Nat := 1

/-- `bt_addr_le_t`: a 6-byte link-layer address (`a.val`, little-endian
storage order, `val[0]` first) plus a type byte.  Modelled from the spec
(the struct lives in a header outside `src/`): "a link-layer address plus a
one-bit kind tag". -/
structure BtAddrLE where
  type : Nat
  val : List Nat
  deriving DecidableEq, Repr

/-- `SETTINGS_NAME_SEPARATOR` / `SETTINGS_NAME_END` stoppers of
`settings_name_next`: `'/'`, `'='` and the string terminator. -/
def isStop (c : Char) : Bool :=
  c = nul || c = '=' || c = '/'

/-- Modelled from the spec: Zephyr's `settings_name_next` (settings store
collaborator, outside `src/`) returns the number of characters of the first
path segment, i.e. the count of characters before the first `'/'`, `'='` or
the end of the string. -/
def settings_name_next : List Char → Nat
  | [] => 0
  | c :: rest => if isStop c then 0 else settings_name_next rest + 1

/-- Zephyr `char2hex` (hex utility collaborator): maps `'0'`-`'9'`,
`'a'`-`'f'`, `'A'`-`'F'` to their value, anything else is an error
(modelled as `none`). -/
def char2hex (c : Char) : Option Nat :=
  if '0' ≤ c ∧ c ≤ '9' then some (c.toNat - '0'.toNat)
  else if 'a' ≤ c ∧ c ≤ 'f' then some (c.toNat - 'a'.toNat + 10)
  else if 'A' ≤ c ∧ c ≤ 'F' then some (c.toNat - 'A'.toNat + 10)
  else none

/-- Zephyr `hex2char` for a nibble: `0`-`9` to `'0'`-`'9'`, `10`-`15` to
`'a'`-`'f'` (lowercase). -/
def hex2char (x : Nat) : Char :=
  if x ≤ 9 then Char.ofNat ('0'.toNat + x) else Char.ofNat ('a'.toNat + x - 10)

/-- Zephyr `hex2bin(hex, 2, buf, 1)` as called by `bt_settings_decode_key`:
the length check `1 < 2/2 + 2%2` passes, the first character's nibble is
stored into the byte (`buf[i] = dec << 4`) **before** the second character is
examined, so an invalid second character leaves the high nibble written; an
invalid first character leaves the byte untouched.  Returns the (possibly
partially) updated byte value; the C return code is ignored by the caller. -/
def hex2bin2 (c1 c2 : Char) (b : Nat) : Nat :=
  match char2hex c1 with
  | none => b
  | some d1 =>
    match char2hex c2 with
    | none => d1 * 16
    | some d2 => d1 * 16 + d2

/-- `bt_settings_decode_key` (settings.c lines 94-115): requires the first
path segment to be exactly 13 characters, requires the 13th character to be
`'0'` or `'1'` (setting the address type accordingly), then converts the six
hex pairs into `val[5] .. val[0]`, ignoring `hex2bin`'s result. -/
def bt_settings_decode_key (key : List Char) (addr : BtAddrLE) : Int × BtAddrLE :=
  if settings_name_next key ≠ 13 then (-EINVAL, addr)
  else if key.getD 12 nul = '0' then
    (0, decodeLoop key { addr with type := BT_ADDR_LE_PUBLIC })
  else if key.getD 12 nul = '1' then
    (0, decodeLoop key { addr with type := BT_ADDR_LE_RANDOM })
  else (-EINVAL, addr)
where
  /-- the `for (i = 0; i < 6; i++) hex2bin(&key[i*2], 2, &addr->a.val[5-i], 1)`
  loop of `bt_settings_decode_key`. -/
  decodeLoop (key : List Char) (addr : BtAddrLE) : BtAddrLE :=
    List.foldl
      (fun a i =>
        { a with
          val := a.val.set (5 - i)
            (hex2bin2 (key.getD (2 * i) nul) (key.getD (2 * i + 1) nul)
              (a.val.getD (5 - i) 0)) })
      addr [0, 1, 2, 3, 4, 5]

example :
    bt_settings_decode_key "0605040302010".toList ⟨9, [7, 7, 7, 7, 7, 7]⟩ =
      (0, ⟨0, [1, 2, 3, 4, 5, 6]⟩) := by decide

example :
    bt_settings_decode_key "06050403020".toList ⟨9, [7, 7, 7, 7, 7, 7]⟩ =
      (-EINVAL, ⟨9, [7, 7, 7, 7, 7, 7]⟩) := by decide

example :
    bt_settings_decode_key "0605040302012".toList ⟨9, [7, 7, 7, 7, 7, 7]⟩ =
      (-EINVAL, ⟨9, [7, 7, 7, 7, 7, 7]⟩) := by decide

/-! ## Path encoding (`bt_settings_encode_key`, non-printk branch, lines 44-91) -/

/-- C `strncpy(&buf[pos], src, n)` into the bounded buffer `buf`: copies the
characters of the (nul-free) source string, then pads with NUL up to `n`
bytes; never writes more than `n` bytes. -/
def strncpyAt : List Char → Nat → List Char → Nat → List Char
  | buf, _, _, 0 => buf
  | buf, pos, [], n + 1 => strncpyAt (buf.set pos nul) (pos + 1) [] n
  | buf, pos, c :: src, n + 1 => strncpyAt (buf.set pos c) (pos + 1) src n

/-- C `strlen` over the modelled buffer: index of the first NUL, or the
buffer length when the buffer holds no NUL (in C that `strlen` would read
past the buffer and return some value `≥` the buffer length; every use in
`bt_settings_encode_key` only compares the result against `path_size`, for
which any such value behaves identically, so this is a faithful
observational model). -/
def cstrLen : List Char → Nat
  | [] => 0
  | c :: rest => if c = nul then 0 else cstrLen rest + 1

/-- The string content of a buffer: its characters before the first NUL. -/
def cString (buf : List Char) : List Char := buf.take (cstrLen buf)

/-- Zephyr `bin2hex(&byte, 1, &buf[pos], avail)`: requires `avail ≥ 3`
(two hex characters plus a terminator), otherwise writes nothing and returns
0; on success writes the two lowercase hex characters and a NUL and
returns 2. -/
def bin2hex1 (b : Nat) (buf : List Char) (pos avail : Nat) : List Char × Nat :=
  if avail < 3 then (buf, 0)
  else
    ((((buf.set pos (hex2char (b / 16))).set (pos + 1)
        (hex2char (b % 16))).set (pos + 2) nul), 2)

/-- The `for (int8_t i = 5; i >= 0 && len < path_size; i--)` loop of
`bt_settings_encode_key`: the bytes are supplied most-significant-first
(`val[5]` down to `val[0]`); each iteration re-checks `len < path_size` and
advances `len` by what `bin2hex` returned. -/
def hexLoop : List Nat → List Char → Nat → Nat → List Char × Nat
  | [], buf, len, _ => (buf, len)
  | b :: rest, buf, len, size =>
    if len < size then
      let r := bin2hex1 b buf len (size - len)
      hexLoop rest r.1 (len + r.2) size
    else (buf, len)

/-- `bt_settings_encode_key` (settings.c lines 44-91, the
`CONFIG_BT_SETTINGS_USE_PRINTK` **disabled** branch, which the claims cite):
builds `"bt/<subsys>/<addr-hex><type-digit>[/<key>]"` into the bounded
buffer `buf` (whose length is `path_size`), step by step exactly as the C
code: `strcpy(path, "bt/")`, `strncpy` of the subsystem,
`len = strlen(path)`, the `'/'`, the six `bin2hex` calls, the type digit
`'0' + addr->type`, the optional `'/' <key>`, and the final forced NUL at
`path_size - 1` when `len` reached `path_size`. -/
def bt_settings_encode_key (buf : List Char) (subsys : List Char)
    (addr : BtAddrLE) (key : Option (List Char)) : List Char :=
  let size := buf.length
  if 3 < size then
    let b1 := (((buf.set 0 'b').set 1 't').set 2 '/').set 3 nul
    let b2 := strncpyAt b1 3 subsys (size - 3)
    let len1 := cstrLen b2
    let s3 : List Char × Nat :=
      if len1 < size then (b2.set len1 '/', len1 + 1) else (b2, len1)
    let s4 := hexLoop
      [addr.val.getD 5 0, addr.val.getD 4 0, addr.val.getD 3 0,
       addr.val.getD 2 0, addr.val.getD 1 0, addr.val.getD 0 0]
      s3.1 s3.2 size
    let s5 : List Char × Nat :=
      if s4.2 < size then
        (s4.1.set s4.2 (Char.ofNat ('0'.toNat + addr.type)), s4.2 + 1)
      else s4
    let s6 : List Char × Nat :=
      match key with
      | some k =>
        if s5.2 < size then
          let bk := strncpyAt (s5.1.set s5.2 '/') (s5.2 + 1) k (size - (s5.2 + 1))
          (bk, s5.2 + 1 + cstrLen (bk.drop (s5.2 + 1)))
        else s5
      | none => s5
    if s6.2 ≥ size then s6.1.set (size - 1) nul else s6.1
  else if 0 < size then buf.set 0 nul
  else buf

/-- The full (untruncated) encoding per the spec's grammar
`"bt/" <subsys> "/" <addr-hex-reversed> <type-digit> ["/" <key>]`, used as
the reference value for the round-trip and truncation claims. -/
def fullEncoding (subsys : List Char) (addr : BtAddrLE)
    (key : Option (List Char)) : List Char :=
  'b' :: 't' :: '/' :: subsys ++ '/' ::
    (hex2char (addr.val.getD 5 0 / 16) :: hex2char (addr.val.getD 5 0 % 16) ::
     hex2char (addr.val.getD 4 0 / 16) :: hex2char (addr.val.getD 4 0 % 16) ::
     hex2char (addr.val.getD 3 0 / 16) :: hex2char (addr.val.getD 3 0 % 16) ::
     hex2char (addr.val.getD 2 0 / 16) :: hex2char (addr.val.getD 2 0 % 16) ::
     hex2char (addr.val.getD 1 0 / 16) :: hex2char (addr.val.getD 1 0 % 16) ::
     hex2char (addr.val.getD 0 0 / 16) :: hex2char (addr.val.getD 0 0 % 16) ::
     Char.ofNat ('0'.toNat + addr.type) ::
      (match key with | some k => '/' :: k | none => []))

example :
    cString (bt_settings_encode_key (List.replicate 22 'X') "keys".toList
        ⟨0, [1, 2, 3, 4, 5, 6]⟩ none) =
      "bt/keys/0605040302010".toList := by decide

example :
    cString (bt_settings_encode_key (List.replicate 7 'X') "a".toList
        ⟨0, [0, 0, 0, 0, 0, 255]⟩ none) = "bt/a/0".toList := by decide

example :
    fullEncoding "a".toList ⟨0, [0, 0, 0, 0, 0, 255]⟩ none =
      "bt/a/ff00000000000".toList := by decide

/-! ## Hex helper lemmas -/

lemma char2hex_hex2char : ∀ x : Nat, x < 16 → char2hex (hex2char x) = some x := by
  decide

lemma isStop_hex2char : ∀ x : Nat, x < 16 → isStop (hex2char x) = false := by
  decide

lemma hex2bin2_hex2char {x y : Nat} (hx : x < 16) (hy : y < 16) (b : Nat) :
    hex2bin2 (hex2char x) (hex2char y) b = x * 16 + y := by
  simp [hex2bin2, char2hex_hex2char x hx, char2hex_hex2char y hy]

/-! ## Buffer algebra -/

lemma take_set_succ (buf : List Char) (pos : Nat) (c : Char)
    (h : pos < buf.length) :
    (buf.set pos c).take (pos + 1) = buf.take pos ++ [c] := by
  rw [List.set_eq_take_cons_drop c h]
  have hl : pos + 1 = (buf.take pos).length + 1 := by
    simp [List.length_take]; omega
  rw [hl, List.take_append]
  simp

lemma drop_set_succ (buf : List Char) (pos : Nat) (c : Char)
    (h : pos < buf.length) :
    (buf.set pos c).drop (pos + 1) = buf.drop (pos + 1) := by
  rw [List.set_eq_take_cons_drop c h]
  have hl : pos + 1 = (buf.take pos).length + 1 := by
    simp [List.length_take]; omega
  rw [hl, List.drop_append]
  simp [List.length_take]

lemma take_set_of_le (buf : List Char) (pos i : Nat) (c : Char)
    (h : i ≤ pos) : (buf.set pos c).take i = buf.take i := by
  by_cases hp : pos < buf.length
  · rw [List.set_eq_take_cons_drop c hp,
      List.take_append_of_le_length (by simp [List.length_take]; omega),
      List.take_take, min_eq_left h]
  · rw [List.set_eq_of_length_le (by omega)]

/-- `strncpyAt` unfolded: within bounds, `strncpy` replaces the `n`-byte
region at `pos` with the source (clipped to `n`) padded with NULs. -/
lemma strncpyAt_eq (n : Nat) : ∀ (src buf : List Char) (pos : Nat),
    pos + n ≤ buf.length →
    strncpyAt buf pos src n =
      buf.take pos ++ src.take n ++ List.replicate (n - src.length) nul ++
        buf.drop (pos + n) := by
  induction n with
  | zero => intro src buf pos h; simp [strncpyAt]
  | succ n ih =>
    intro src buf pos h
    have hp : pos < buf.length := by omega
    match src with
    | [] =>
      rw [strncpyAt, ih [] (buf.set pos nul) (pos + 1) (by simp; omega)]
      rw [take_set_succ _ _ _ hp, List.drop_set_of_lt _ _ (by omega)]
      simp [List.replicate_succ]
      rw [show pos + 1 + n = pos + (n + 1) by omega]
    | c :: src =>
      rw [strncpyAt, ih src (buf.set pos c) (pos + 1) (by simp; omega)]
      rw [take_set_succ _ _ _ hp, List.drop_set_of_lt _ _ (by omega)]
      simp
      rw [show pos + 1 + n = pos + (n + 1) by omega]

lemma cstrLen_append_of_ne (l1 l2 : List Char) (h : ∀ c ∈ l1, c ≠ nul) :
    cstrLen (l1 ++ l2) = l1.length + cstrLen l2 := by
  induction l1 with
  | nil => simp
  | cons c l ih =>
    have hc : c ≠ nul := h c (by simp)
    simp [cstrLen, hc, ih (fun x hx => h x (by simp [hx]))]
    omega

lemma cstrLen_nul_cons (l : List Char) : cstrLen (nul :: l) = 0 := by
  simp [cstrLen]

/-- The twelve hex characters of the address bytes, most-significant byte
first, as written by the encoder's `bin2hex` loop. -/
def hexChars : List Nat → List Char
  | [] => []
  | b :: r => hex2char (b / 16) :: hex2char (b % 16) :: hexChars r

lemma hexChars_length (bs : List Nat) : (hexChars bs).length = 2 * bs.length := by
  induction bs with
  | nil => simp [hexChars]
  | cons b r ih => simp [hexChars, ih]; omega

/-- `hexLoop` with enough remaining room writes the hex characters of all
its bytes, a NUL after them, and advances `len` by two per byte. -/
lemma hexLoop_eq (bs : List Nat) : ∀ (buf : List Char) (len : Nat),
    bs ≠ [] → len + 2 * bs.length + 1 ≤ buf.length →
    hexLoop bs buf len buf.length =
      (buf.take len ++ hexChars bs ++ nul :: buf.drop (len + 2 * bs.length + 1),
       len + 2 * bs.length) := by
  induction bs with
  | nil => intro _ _ hne _; exact absurd rfl hne
  | cons b rest ih =>
    intro buf len _ hroom
    simp only [List.length_cons] at hroom
    have hlt : len < buf.length := by omega
    have hav : ¬ (buf.length - len < 3) := by omega
    rw [hexLoop]
    simp only [hlt, if_true, bin2hex1, hav, if_false]
    set buf1 : List Char :=
      ((buf.set len (hex2char (b / 16))).set (len + 1)
        (hex2char (b % 16))).set (len + 2) nul with hbuf1
    have hb1len : buf1.length = buf.length := by simp [hbuf1]
    have ht2 : buf1.take (len + 2) = buf.take len ++
        [hex2char (b / 16), hex2char (b % 16)] := by
      rw [hbuf1]
      rw [take_set_of_le _ _ _ _ (by omega)]
      rw [show len + 2 = len + 1 + 1 by omega]
      rw [take_set_succ _ _ _ (by simp; omega)]
      rw [take_set_succ _ _ _ (by omega)]
      simp
    have hd3 : ∀ j : Nat, len + 3 ≤ j → buf1.drop j = buf.drop j := by
      intro j hj
      rw [hbuf1]
      rw [List.drop_set_of_lt _ _ (by omega), List.drop_set_of_lt _ _ (by omega),
        List.drop_set_of_lt _ _ (by omega)]
    match rest, ih with
    | [], _ =>
      rw [hexLoop]
      simp only [hexChars, Prod.mk.injEq, List.length_cons, List.length_nil]
      refine ⟨?_, trivial⟩
      have hinner : buf1 =
          ((buf.set len (hex2char (b / 16))).set (len + 1)
            (hex2char (b % 16))).take (len + 2) ++ nul ::
          ((buf.set len (hex2char (b / 16))).set (len + 1)
            (hex2char (b % 16))).drop (len + 2 + 1) := by
        rw [hbuf1]
        exact List.set_eq_take_cons_drop _ (by simp; omega)
      rw [hinner]
      rw [show len + 2 = len + 1 + 1 by omega]
      rw [take_set_succ _ _ _ (by simp; omega)]
      rw [take_set_succ _ _ _ hlt]
      rw [List.drop_set_of_lt _ _ (by omega), List.drop_set_of_lt _ _ (by omega)]
      rw [show len + 1 + 1 + 1 = len + 2 * (0 + 1) + 1 by omega]
      simp
    | r :: rs, ih =>
      have hrec := ih buf1 (len + 2) (by simp)
        (by rw [hb1len]; simp only [List.length_cons] at hroom ⊢; omega)
      rw [hb1len] at hrec
      rw [hrec]
      simp only [Prod.mk.injEq, List.length_cons]
      refine ⟨?_, by omega⟩
      rw [ht2, hd3 _ (by omega)]
      rw [show len + 2 + 2 * (rs.length + 1) + 1 =
        len + 2 * (rs.length + 1 + 1) + 1 by omega]
      simp [hexChars]

/-- Symbolic evaluation of `bt_settings_encode_key` without a leaf key when
the buffer has room for the full path and its terminator: the buffer holds
exactly the full encoding followed by NUL padding.  (No truncation branch is
taken; every `len < path_size` guard passes.) -/
lemma encode_none_eq (buf subsys : List Char) (addr : BtAddrLE)
    (hns : ∀ c ∈ subsys, c ≠ nul)
    (hcap : subsys.length + 18 ≤ buf.length) :
    bt_settings_encode_key buf subsys addr none =
      fullEncoding subsys addr none ++
        List.replicate (buf.length - (subsys.length + 17)) nul := by
  match buf, hcap with
  | c0 :: c1 :: c2 :: c3 :: rest, hcap =>
  simp only [List.length_cons] at hcap
  -- abbreviations for the concrete sizes
  set size : Nat := (c0 :: c1 :: c2 :: c3 :: rest).length with hsize
  have hsz : size = rest.length + 4 := by simp [hsize]
  have h3 : 3 < size := by omega
  -- stage 1: strcpy of "bt/"
  have hb1 : ((((c0 :: c1 :: c2 :: c3 :: rest).set 0 'b').set 1 't').set 2
      '/').set 3 nul = 'b' :: 't' :: '/' :: nul :: rest := by
    simp [List.set]
  -- stage 2: strncpy of the subsystem string
  have hA : strncpyAt ('b' :: 't' :: '/' :: nul :: rest) 3 subsys (size - 3) =
      ('b' :: 't' :: '/' :: (subsys ++
        List.replicate (size - 3 - subsys.length) nul)) := by
    rw [strncpyAt_eq _ _ _ _ (by simp only [List.length_cons]; omega)]
    rw [show List.take 3 ('b' :: 't' :: '/' :: nul :: rest) = ['b', 't', '/']
      from rfl]
    rw [List.take_of_length_le (by omega)]
    rw [show 3 + (size - 3) = size by omega]
    rw [List.drop_eq_nil_of_le (by simp only [List.length_cons]; omega)]
    simp
  -- stage 3: strlen finds the end of "bt/<subsys>"
  have hpad : ∃ k, size - 3 - subsys.length = k + 1 :=
    ⟨size - 4 - subsys.length, by omega⟩
  obtain ⟨k, hk⟩ := hpad
  have hB : cstrLen ('b' :: 't' :: '/' :: (subsys ++
      List.replicate (size - 3 - subsys.length) nul)) = 3 + subsys.length := by
    rw [show ('b' :: 't' :: '/' :: (subsys ++
      List.replicate (size - 3 - subsys.length) nul)) =
      (('b' :: 't' :: '/' :: subsys) ++
        List.replicate (size - 3 - subsys.length) nul) by simp]
    rw [cstrLen_append_of_ne]
    · rw [hk, List.replicate_succ, cstrLen_nul_cons]
      simp
      omega
    · intro c hc
      simp at hc
      rcases hc with h | h | h | h
      all_goals first
      | (subst h; decide)
      | exact hns c h
  -- stage 4: the '/' after the subsystem overwrites the first padding NUL
  have hC : ('b' :: 't' :: '/' :: (subsys ++
      List.replicate (size - 3 - subsys.length) nul)).set (3 + subsys.length)
        '/' =
      ('b' :: 't' :: '/' :: subsys) ++ '/' :: List.replicate k nul := by
    rw [show ('b' :: 't' :: '/' :: (subsys ++
        List.replicate (size - 3 - subsys.length) nul)) =
      (('b' :: 't' :: '/' :: subsys) ++
        List.replicate (size - 3 - subsys.length) nul) by simp]
    rw [List.set_append_right _ _ (by simp; omega)]
    rw [hk, List.replicate_succ]
    have h0 : 3 + subsys.length - (subsys.length + 1 + 1 + 1) = 0 := by omega
    simp [List.set, h0]
  -- the six address bytes, most significant first, as the encoder reads them
  set bytes : List Nat :=
    [addr.val.getD 5 0, addr.val.getD 4 0, addr.val.getD 3 0,
     addr.val.getD 2 0, addr.val.getD 1 0, addr.val.getD 0 0] with hbytes
  set b3 : List Char :=
    ('b' :: 't' :: '/' :: subsys) ++ '/' :: List.replicate k nul with hb3
  have hb3len : b3.length = size := by
    simp [hb3]
    omega
  -- stage 5: the bin2hex loop writes the twelve hex characters
  have hD : hexLoop bytes b3 (3 + subsys.length + 1) size =
      (('b' :: 't' :: '/' :: subsys) ++ '/' :: hexChars bytes ++
        nul :: List.replicate (k - 13) nul, 3 + subsys.length + 13) := by
    rw [← hb3len]
    rw [hexLoop_eq bytes b3 (3 + subsys.length + 1) (by simp [hbytes])
      (by rw [hb3len]; simp [hbytes]; omega)]
    rw [hb3]
    have hpre : ('b' :: 't' :: '/' :: subsys) ++ '/' :: List.replicate k nul =
        (('b' :: 't' :: '/' :: subsys ++ ['/']) ++ List.replicate k nul) := by
      simp
    rw [hpre]
    rw [show 3 + subsys.length + 1 =
      ('b' :: 't' :: '/' :: subsys ++ ['/']).length by simp; omega]
    rw [List.take_left]
    rw [show ('b' :: 't' :: '/' :: subsys ++ ['/']).length + 2 * bytes.length
        + 1 = ('b' :: 't' :: '/' :: subsys ++ ['/']).length + 13 by
      simp [hbytes]]
    rw [List.drop_append, List.drop_replicate]
    simp only [Prod.mk.injEq]
    constructor
    · simp
    · simp [hbytes]
      omega
  -- stage 6: the type digit overwrites the NUL written by the last bin2hex
  have hE : (('b' :: 't' :: '/' :: subsys) ++ '/' :: hexChars bytes ++
      nul :: List.replicate (k - 13) nul).set (3 + subsys.length + 13)
        (Char.ofNat ('0'.toNat + addr.type)) =
      ('b' :: 't' :: '/' :: subsys) ++ '/' :: hexChars bytes ++
        Char.ofNat ('0'.toNat + addr.type) :: List.replicate (k - 13) nul := by
    rw [show (('b' :: 't' :: '/' :: subsys) ++ '/' :: hexChars bytes ++
        nul :: List.replicate (k - 13) nul) =
      ((('b' :: 't' :: '/' :: subsys) ++ '/' :: hexChars bytes) ++
        nul :: List.replicate (k - 13) nul) by simp]
    rw [List.set_append_right _ _
      (by simp [hexChars_length, hbytes]; omega)]
    rw [show 3 + subsys.length + 13 -
        (('b' :: 't' :: '/' :: subsys) ++ '/' :: hexChars bytes).length = 0 by
      simp [hexChars_length, hbytes]; omega]
    simp [List.set]
  -- assemble all stages
  simp only [bt_settings_encode_key]
  rw [← hsize, if_pos h3, hb1, hA, hB, if_pos (show 3 + subsys.length < size
    by omega)]
  dsimp only
  rw [hC, ← hbytes, hD]
  dsimp only
  rw [if_pos (show 3 + subsys.length + 13 < size by omega)]
  dsimp only
  rw [hE]
  rw [if_neg (show ¬ (3 + subsys.length + 13 + 1 ≥ size) by omega)]
  rw [show k - 13 = size - (subsys.length + 17) by omega]
  simp [fullEncoding, hexChars, hbytes]

lemma snn_append (l1 l2 : List Char) (h : ∀ c ∈ l1, isStop c = false) :
    settings_name_next (l1 ++ l2) = l1.length + settings_name_next l2 := by
  induction l1 with
  | nil => simp
  | cons c l ih =>
    have hc := h c (by simp)
    simp [settings_name_next, hc, ih (fun x hx => h x (by simp [hx]))]
    omega

lemma snn_nul_cons (l : List Char) : settings_name_next (nul :: l) = 0 := by
  simp [settings_name_next, isStop]

/-! ## C1: encode/decode round-trip -/

/-- C1.  For every 6-byte address `[b0..b5]` (stored little-endian, as in
`bt_addr_le_t`) and type `t ∈ {0, 1}`, encoding with `bt_settings_encode_key`
into a buffer large enough for the full path (no leaf key, any nul-free
subsystem string) and then decoding the resulting 13-character address/type
suffix (the portion of the path after `"bt/<subsys>/"`) with
`bt_settings_decode_key` recovers exactly the original bytes in their
original storage order and the original type. -/
theorem bt_settings_encode_decode_roundtrip
    (buf subsys : List Char) (b0 b1 b2 b3 b4 b5 t : Nat)
    (hns : ∀ c ∈ subsys, c ≠ nul)
    (hcap : subsys.length + 18 ≤ buf.length)
    (hb0 : b0 < 256) (hb1 : b1 < 256) (hb2 : b2 < 256)
    (hb3 : b3 < 256) (hb4 : b4 < 256) (hb5 : b5 < 256) (ht : t < 2)
    (addr0 : BtAddrLE) (hlen : addr0.val.length = 6) :
    bt_settings_decode_key
      ((bt_settings_encode_key buf subsys ⟨t, [b0, b1, b2, b3, b4, b5]⟩
          none).drop (subsys.length + 4)) addr0 =
      (0, ⟨t, [b0, b1, b2, b3, b4, b5]⟩) := by
  obtain ⟨t0, v⟩ := addr0
  simp only at hlen
  rcases v with _ | ⟨q0, _ | ⟨q1, _ | ⟨q2, _ | ⟨q3, _ | ⟨q4, _ | ⟨q5,
    _ | ⟨q6, v⟩⟩⟩⟩⟩⟩⟩ <;> simp at hlen
  rw [encode_none_eq _ _ _ hns hcap]
  set m : Nat := buf.length - (subsys.length + 17) with hm
  obtain ⟨m1, hm1⟩ : ∃ m1, m = m1 + 1 := ⟨m - 1, by omega⟩
  have hfull : fullEncoding subsys ⟨t, [b0, b1, b2, b3, b4, b5]⟩ none ++
      List.replicate m nul =
      (('b' :: 't' :: '/' :: subsys) ++ ['/']) ++
        ([hex2char (b5 / 16), hex2char (b5 % 16),
          hex2char (b4 / 16), hex2char (b4 % 16),
          hex2char (b3 / 16), hex2char (b3 % 16),
          hex2char (b2 / 16), hex2char (b2 % 16),
          hex2char (b1 / 16), hex2char (b1 % 16),
          hex2char (b0 / 16), hex2char (b0 % 16),
          Char.ofNat (48 + t)] ++ nul :: List.replicate m1 nul) := by
    rw [hm1]
    simp [fullEncoding, List.replicate_succ]
  rw [hfull]
  rw [show subsys.length + 4 =
    (('b' :: 't' :: '/' :: subsys) ++ ['/']).length + 0 by
      simp only [List.length_append, List.length_cons, List.length_nil]]
  rw [List.drop_append]
  simp only [List.drop_zero]
  have hstops : ∀ c ∈ [hex2char (b5 / 16), hex2char (b5 % 16),
      hex2char (b4 / 16), hex2char (b4 % 16),
      hex2char (b3 / 16), hex2char (b3 % 16),
      hex2char (b2 / 16), hex2char (b2 % 16),
      hex2char (b1 / 16), hex2char (b1 % 16),
      hex2char (b0 / 16), hex2char (b0 % 16),
      Char.ofNat (48 + t)], isStop c = false := by
    intro c hc
    simp only [List.mem_cons, List.not_mem_nil, or_false] at hc
    rcases hc with h | h | h | h | h | h | h | h | h | h | h | h | h <;>
      subst h <;>
      first
      | (exact isStop_hex2char _ (by omega))
      | (interval_cases t <;> decide)
  have h13 : settings_name_next
      ([hex2char (b5 / 16), hex2char (b5 % 16),
        hex2char (b4 / 16), hex2char (b4 % 16),
        hex2char (b3 / 16), hex2char (b3 % 16),
        hex2char (b2 / 16), hex2char (b2 % 16),
        hex2char (b1 / 16), hex2char (b1 % 16),
        hex2char (b0 / 16), hex2char (b0 % 16),
        Char.ofNat (48 + t)] ++ nul :: List.replicate m1 nul) = 13 := by
    rw [snn_append _ _ hstops, snn_nul_cons]
    simp
  rw [bt_settings_decode_key]
  rw [h13]
  simp only [ne_eq, not_true_eq_false, if_false, ite_false]
  have hget12 : ([hex2char (b5 / 16), hex2char (b5 % 16),
      hex2char (b4 / 16), hex2char (b4 % 16),
      hex2char (b3 / 16), hex2char (b3 % 16),
      hex2char (b2 / 16), hex2char (b2 % 16),
      hex2char (b1 / 16), hex2char (b1 % 16),
      hex2char (b0 / 16), hex2char (b0 % 16),
      Char.ofNat (48 + t)] ++ nul :: List.replicate m1 nul).getD 12 nul =
      Char.ofNat (48 + t) := rfl
  rw [hget12]
  interval_cases t <;>
    simp only [show Char.ofNat (48 + 0) = '0' from rfl,
      show Char.ofNat (48 + 1) = '1' from rfl, reduceIte,
      bt_settings_decode_key.decodeLoop, List.foldl] <;>
    simp only [List.getD_cons_zero, List.getD_cons_succ, List.append_eq,
      List.cons_append, List.nil_append] <;>
    simp only [show (2 : Nat) * 0 = 0 from rfl, show (2 : Nat) * 1 = 2 from rfl,
      show (2 : Nat) * 2 = 4 from rfl, show (2 : Nat) * 3 = 6 from rfl,
      show (2 : Nat) * 4 = 8 from rfl, show (2 : Nat) * 5 = 10 from rfl,
      show (5 : Nat) - 0 = 5 from rfl, show (5 : Nat) - 1 = 4 from rfl,
      show (5 : Nat) - 2 = 3 from rfl, show (5 : Nat) - 3 = 2 from rfl,
      show (5 : Nat) - 4 = 1 from rfl, show (5 : Nat) - 5 = 0 from rfl] <;>
    simp only [List.getD, List.get?, Option.getD, List.set] <;>
    simp [hex2bin2_hex2char (by omega : b5 / 16 < 16) (by omega : b5 % 16 < 16),
      hex2bin2_hex2char (by omega : b4 / 16 < 16) (by omega : b4 % 16 < 16),
      hex2bin2_hex2char (by omega : b3 / 16 < 16) (by omega : b3 % 16 < 16),
      hex2bin2_hex2char (by omega : b2 / 16 < 16) (by omega : b2 % 16 < 16),
      hex2bin2_hex2char (by omega : b1 / 16 < 16) (by omega : b1 % 16 < 16),
      hex2bin2_hex2char (by omega : b0 / 16 < 16) (by omega : b0 % 16 < 16),
      BT_ADDR_LE_PUBLIC, BT_ADDR_LE_RANDOM] <;>
    omega

/-- Witness for C1: the round-trip at a concrete address, type, subsystem
and buffer. -/
theorem bt_settings_encode_decode_roundtrip_witness :
    bt_settings_decode_key
      ((bt_settings_encode_key (List.replicate 22 'X') "keys".toList
          ⟨1, [0x01, 0x02, 0xa3, 0xff, 0x00, 0xc6]⟩ none).drop
        ("keys".toList.length + 4)) ⟨0, [9, 9, 9, 9, 9, 9]⟩ =
      (0, ⟨1, [0x01, 0x02, 0xa3, 0xff, 0x00, 0xc6]⟩) :=
  bt_settings_encode_decode_roundtrip (List.replicate 22 'X') "keys".toList
    0x01 0x02 0xa3 0xff 0x00 0xc6 1 (by decide) (by decide)
    (by decide) (by decide) (by decide) (by decide) (by decide) (by decide)
    (by decide) ⟨0, [9, 9, 9, 9, 9, 9]⟩ (by decide)

/-! ## C2: decode rejection behaviour -/

/-- Counterexample for C2: the 13-character segment `"zz00000000000"` has a
non-hex character in the address portion, yet `bt_settings_decode_key`
accepts it (returns 0, not an error) and modifies the output record (the
type field becomes 0 and five of the six bytes are overwritten; the byte
whose hex pair is invalid keeps its old value). -/
theorem decode_key_accepts_nonhex_cex :
    bt_settings_decode_key "zz00000000000".toList ⟨1, [9, 9, 9, 9, 9, 9]⟩ =
      (0, ⟨0, [0, 0, 0, 0, 0, 9]⟩) := by decide

/-- C2 (amended).  `bt_settings_decode_key` rejects exactly the structural
failures it checks for: if the first path segment is not 13 characters
long, or the 13th character is neither `'0'` nor `'1'`, it returns
`-EINVAL` and leaves the output address record (all six bytes and the type
field) completely unmodified.  (The twelve leading characters are *not*
validated as hex digits: inputs failing only that are accepted, see the
counterexample.) -/
theorem decode_key_length_type_guard (key : List Char) (addr : BtAddrLE)
    (h : settings_name_next key ≠ 13 ∨
      (key.getD 12 nul ≠ '0' ∧ key.getD 12 nul ≠ '1')) :
    bt_settings_decode_key key addr = (-EINVAL, addr) := by
  rw [bt_settings_decode_key]
  rcases h with h | ⟨h0, h1⟩
  · rw [if_pos h]
  · by_cases hl : settings_name_next key ≠ 13
    · rw [if_pos hl]
    · rw [if_neg hl, if_neg h0, if_neg h1]

/-- Witness for C2 (amended): a short segment and a bad type digit, both
rejected without touching the record. -/
theorem decode_key_length_type_guard_witness :
    bt_settings_decode_key "abc".toList ⟨1, [9, 9, 9, 9, 9, 9]⟩ =
      (-EINVAL, ⟨1, [9, 9, 9, 9, 9, 9]⟩) :=
  decode_key_length_type_guard "abc".toList ⟨1, [9, 9, 9, 9, 9, 9]⟩
    (Or.inl (by decide))

/-! ## C5: encoder truncation safety -/

lemma strncpyAt_length (n : Nat) : ∀ (buf src : List Char) (pos : Nat),
    (strncpyAt buf pos src n).length = buf.length := by
  induction n with
  | zero => intro buf src pos; cases src <;> rfl
  | succ n ih => intro buf src pos; cases src <;> simp [strncpyAt, ih]

lemma bin2hex1_length (b : Nat) (buf : List Char) (pos avail : Nat) :
    ((bin2hex1 b buf pos avail).1).length = buf.length := by
  rw [bin2hex1]; split <;> simp

lemma hexLoop_length (bs : List Nat) : ∀ (buf : List Char) (len size : Nat),
    ((hexLoop bs buf len size).1).length = buf.length := by
  induction bs with
  | nil => intro buf len size; rfl
  | cons b rest ih =>
    intro buf len size
    rw [hexLoop]
    split
    · rw [ih]; exact bin2hex1_length b buf len (size - len)
    · rfl

lemma getD_set_ne_nul (l : List Char) (i j : Nat) (c : Char) (h : i ≠ j) :
    (l.set i c).getD j nul = l.getD j nul := by
  simp [List.getD, List.getElem?_set_ne h]

lemma getD_set_self_nul (l : List Char) (i : Nat) :
    (l.set i nul).getD i nul = nul := by
  by_cases h : i < l.length
  · simp [List.getD, List.getElem?_set_self, h]
  · exact List.getD_eq_default _ _ (by simp; omega)

/-- Invariant carried through the encoder: every buffer position at or after
`len` holds NUL (positions past the end trivially so, via `getD`'s
default). -/
def tailNul (b : List Char) (len : Nat) : Prop :=
  ∀ j, len ≤ j → b.getD j nul = nul

lemma tailNul_set (b : List Char) (len : Nat) (c : Char)
    (h : tailNul b len) : tailNul (b.set len c) (len + 1) := by
  intro j hj
  rw [getD_set_ne_nul _ _ _ _ (by omega)]
  exact h j (by omega)

lemma tailNul_shape (l1 : List Char) (p : Nat) :
    tailNul (l1 ++ List.replicate p nul) l1.length := by
  intro j hj
  rw [List.getD_append_right _ _ _ _ hj]
  by_cases h : j - l1.length < p
  · simp [List.getD, List.getElem?_replicate, h]
  · exact List.getD_eq_default _ _ (by simp; omega)

lemma tailNul_append_lift (l1 l2 : List Char) (t : Nat) (h : tailNul l2 t) :
    tailNul (l1 ++ l2) (l1.length + t) := by
  intro j hj
  rw [List.getD_append_right _ _ _ _ (by omega)]
  exact h _ (by omega)

lemma cstrLen_le_of_getD_nul : ∀ (l : List Char) (i : Nat),
    l.getD i nul = nul → cstrLen l ≤ i := by
  intro l
  induction l with
  | nil => intro i _; simp [cstrLen]
  | cons c r ih =>
    intro i hg
    match i with
    | 0 =>
      have : c = nul := by simpa [List.getD] using hg
      simp [cstrLen, this]
    | i + 1 =>
      rw [cstrLen]
      split
      · omega
      · have := ih i (by simpa [List.getD] using hg)
        omega

lemma cstrLen_nulfree (l : List Char) (h : ∀ c ∈ l, c ≠ nul) :
    cstrLen l = l.length := by
  have := cstrLen_append_of_ne l [] h
  simpa [cstrLen] using this

lemma cstrLen_shape (l1 : List Char) (p : Nat) (h : ∀ c ∈ l1, c ≠ nul) :
    cstrLen (l1 ++ List.replicate p nul) = l1.length := by
  cases p with
  | zero => simp [cstrLen_nulfree _ h]
  | succ p =>
    rw [List.replicate_succ, cstrLen_append_of_ne _ _ h, cstrLen_nul_cons]
    omega

lemma cstrLen_le_length : ∀ l : List Char, cstrLen l ≤ l.length := by
  intro l
  induction l with
  | nil => simp [cstrLen]
  | cons c r ih =>
    rw [cstrLen]
    split
    · simp
    · simp
      omega

lemma cstrLen_getD_self : ∀ l : List Char, cstrLen l < l.length →
    l.getD (cstrLen l) nul = nul := by
  intro l
  induction l with
  | nil => intro h; simp [cstrLen] at h
  | cons c r ih =>
    intro h
    by_cases hc : c = nul
    · simp [cstrLen, hc, List.getD]
    · rw [cstrLen] at h ⊢
      rw [if_neg hc] at h ⊢
      simp only [List.getD_cons_succ]
      exact ih (by simp at h; omega)

lemma tailNul_bin2hex1 (b : Nat) (buf : List Char) (pos avail : Nat)
    (h : tailNul buf pos) :
    tailNul (bin2hex1 b buf pos avail).1
      (pos + (bin2hex1 b buf pos avail).2) := by
  rw [bin2hex1]
  split
  · simpa using h
  · intro j hj
    simp only at hj ⊢
    by_cases hje : j = pos + 2
    · subst hje
      exact getD_set_self_nul _ _
    · rw [getD_set_ne_nul _ _ _ _ (by omega)]
      rw [getD_set_ne_nul _ _ _ _ (by omega)]
      rw [getD_set_ne_nul _ _ _ _ (by omega)]
      exact h j (by omega)

lemma tailNul_hexLoop (bs : List Nat) : ∀ (buf : List Char) (len size : Nat),
    tailNul buf len →
    tailNul (hexLoop bs buf len size).1 (hexLoop bs buf len size).2 := by
  induction bs with
  | nil => intro buf len size h; exact h
  | cons b rest ih =>
    intro buf len size h
    rw [hexLoop]
    split
    · exact ih _ _ _ (tailNul_bin2hex1 b buf len (size - len) h)
    · exact h

/-- The tail of `bt_settings_encode_key` after the subsystem copy: given any
buffer state `(b2, len1)` whose tail from `len1` on is all NUL, the
remaining stages (the `'/'`, the hex loop, the type digit, the optional
leaf key, and the final truncation guard) keep the buffer length unchanged
and leave a terminated string of length at most `size - 1`. -/
lemma encTail_good (size : Nat) (addr : BtAddrLE) (key : Option (List Char))
    (b2 : List Char) (len1 : Nat)
    (hlen : b2.length = size) (htail : tailNul b2 len1) (h1 : 1 ≤ size) :
    (let s3 : List Char × Nat :=
       if len1 < size then (b2.set len1 '/', len1 + 1) else (b2, len1)
     let s4 := hexLoop
       [addr.val.getD 5 0, addr.val.getD 4 0, addr.val.getD 3 0,
        addr.val.getD 2 0, addr.val.getD 1 0, addr.val.getD 0 0]
       s3.1 s3.2 size
     let s5 : List Char × Nat :=
       if s4.2 < size then
         (s4.1.set s4.2 (Char.ofNat ('0'.toNat + addr.type)), s4.2 + 1)
       else s4
     let s6 : List Char × Nat :=
       match key with
       | some k =>
         if s5.2 < size then
           let bk := strncpyAt (s5.1.set s5.2 '/') (s5.2 + 1) k
             (size - (s5.2 + 1))
           (bk, s5.2 + 1 + cstrLen (bk.drop (s5.2 + 1)))
         else s5
       | none => s5
     let r := if s6.2 ≥ size then s6.1.set (size - 1) nul else s6.1
     r.length = size ∧ cstrLen r ≤ size - 1) := by
  have hfinal : ∀ (b6 : List Char) (l6 : Nat), b6.length = size →
      (b6.getD l6 nul = nul ∨ size ≤ l6) →
      (if l6 ≥ size then b6.set (size - 1) nul else b6).length = size ∧
      cstrLen (if l6 ≥ size then b6.set (size - 1) nul else b6) ≤ size - 1 := by
    intro b6 l6 hl6 hn
    by_cases hf : l6 ≥ size
    · rw [if_pos hf]
      refine ⟨by simp [hl6], ?_⟩
      exact cstrLen_le_of_getD_nul _ _ (getD_set_self_nul _ _)
    · rw [if_neg hf]
      refine ⟨hl6, ?_⟩
      rcases hn with hn | hn
      · have := cstrLen_le_of_getD_nul _ _ hn
        omega
      · omega
  dsimp only
  -- stage 3: the '/' separator
  obtain ⟨b3, l3, he3, hlen3, ht3⟩ : ∃ b l,
      (if len1 < size then (b2.set len1 '/', len1 + 1) else (b2, len1)) =
        (b, l) ∧ b.length = size ∧ tailNul b l := by
    by_cases h : len1 < size
    · exact ⟨_, _, if_pos h, by simpa using hlen, tailNul_set _ _ _ htail⟩
    · exact ⟨_, _, if_neg h, hlen, htail⟩
  rw [he3]
  dsimp only
  -- stage 4: the hex loop
  obtain ⟨b4, l4, he4⟩ : ∃ b l,
      hexLoop [addr.val.getD 5 0, addr.val.getD 4 0, addr.val.getD 3 0,
        addr.val.getD 2 0, addr.val.getD 1 0, addr.val.getD 0 0] b3 l3 size =
      (b, l) := ⟨_, _, rfl⟩
  have hlen4 : b4.length = size := by
    have := hexLoop_length [addr.val.getD 5 0, addr.val.getD 4 0,
      addr.val.getD 3 0, addr.val.getD 2 0, addr.val.getD 1 0,
      addr.val.getD 0 0] b3 l3 size
    rw [he4] at this
    simpa [hlen3] using this
  have ht4 : tailNul b4 l4 := by
    have := tailNul_hexLoop [addr.val.getD 5 0, addr.val.getD 4 0,
      addr.val.getD 3 0, addr.val.getD 2 0, addr.val.getD 1 0,
      addr.val.getD 0 0] b3 l3 size ht3
    rwa [he4] at this
  rw [he4]
  dsimp only
  -- stage 5: the type digit
  obtain ⟨b5, l5, he5, hlen5, ht5⟩ : ∃ b l,
      (if l4 < size then
        (b4.set l4 (Char.ofNat ('0'.toNat + addr.type)), l4 + 1)
      else (b4, l4)) = (b, l) ∧ b.length = size ∧ tailNul b l := by
    by_cases h : l4 < size
    · exact ⟨_, _, if_pos h, by simpa using hlen4, tailNul_set _ _ _ ht4⟩
    · exact ⟨_, _, if_neg h, hlen4, ht4⟩
  rw [he5]
  dsimp only
  -- stage 6: the optional leaf key
  rcases key with _ | k
  · exact hfinal b5 l5 hlen5 (Or.inl (ht5 l5 le_rfl))
  · dsimp only
    by_cases hk : l5 < size
    · rw [if_pos hk]
      dsimp only
      have hblen : (b5.set l5 '/').length = size := by simpa using hlen5
      have hshape := strncpyAt_eq (size - (l5 + 1)) k (b5.set l5 '/') (l5 + 1)
        (by omega)
      rw [show l5 + 1 + (size - (l5 + 1)) = size by omega] at hshape
      rw [List.drop_eq_nil_of_le (by omega)] at hshape
      have htke : ((b5.set l5 '/').take (l5 + 1)).length = l5 + 1 := by
        simp [List.length_take]
        omega
      obtain ⟨A, hA⟩ : ∃ A, (b5.set l5 '/').take (l5 + 1) = A := ⟨_, rfl⟩
      rw [hA] at hshape htke
      have hdrop : (strncpyAt (b5.set l5 '/') (l5 + 1) k
          (size - (l5 + 1))).drop (l5 + 1) =
          k.take (size - (l5 + 1)) ++
            List.replicate (size - (l5 + 1) - k.length) nul := by
        rw [hshape]
        simp only [List.append_nil, List.append_assoc]
        rw [← htke, List.drop_left]
      have hbklen : (strncpyAt (b5.set l5 '/') (l5 + 1) k
          (size - (l5 + 1))).length = size := by
        rw [strncpyAt_length]
        exact hblen
      have htail_len : (k.take (size - (l5 + 1)) ++
          List.replicate (size - (l5 + 1) - k.length) nul).length =
          size - (l5 + 1) := by
        simp [List.length_take]
        omega
      have hnul : (strncpyAt (b5.set l5 '/') (l5 + 1) k
            (size - (l5 + 1))).getD
            (l5 + 1 + cstrLen ((strncpyAt (b5.set l5 '/') (l5 + 1) k
              (size - (l5 + 1))).drop (l5 + 1))) nul = nul ∨
          size ≤ l5 + 1 + cstrLen ((strncpyAt (b5.set l5 '/') (l5 + 1) k
            (size - (l5 + 1))).drop (l5 + 1)) := by
        rw [hdrop]
        by_cases hlt : cstrLen (k.take (size - (l5 + 1)) ++
            List.replicate (size - (l5 + 1) - k.length) nul) <
            size - (l5 + 1)
        · left
          rw [hshape]
          simp only [List.append_nil, List.append_assoc]
          rw [List.getD_append_right _ _ _ _ (by omega)]
          rw [show l5 + 1 + cstrLen (k.take (size - (l5 + 1)) ++
            List.replicate (size - (l5 + 1) - k.length) nul) - A.length =
            cstrLen (k.take (size - (l5 + 1)) ++
              List.replicate (size - (l5 + 1) - k.length) nul) by omega]
          exact cstrLen_getD_self _ (by omega)
        · right
          have h1 := cstrLen_le_length (k.take (size - (l5 + 1)) ++
            List.replicate (size - (l5 + 1) - k.length) nul)
          rw [htail_len] at h1
          omega
      exact hfinal _ _ hbklen hnul
    · rw [if_neg hk]
      exact hfinal b5 l5 hlen5 (Or.inl (ht5 l5 le_rfl))

/-- C5 (amended).  For every destination capacity `C = buf.length` and every
input, `bt_settings_encode_key` writes only inside the destination (the
result has exactly the same length `C`, and the model writes through
bounds-checked `List.set` only); when `C ≥ 1` the result is a terminated
string of length at most `C - 1`; when `C = 0` nothing is written.
Truncation signals no error (the function returns nothing).  The original
claim's further assertion that a truncated result is always a *truncation
of the full encoding* is false: see the counterexample. -/
theorem encode_key_bounded (buf subsys : List Char) (addr : BtAddrLE)
    (key : Option (List Char))
    (hns : ∀ c ∈ subsys, c ≠ nul) :
    (bt_settings_encode_key buf subsys addr key).length = buf.length ∧
    (1 ≤ buf.length →
      cstrLen (bt_settings_encode_key buf subsys addr key) ≤ buf.length - 1) ∧
    (buf.length = 0 → bt_settings_encode_key buf subsys addr key = buf) := by
  by_cases h3 : 3 < buf.length
  · have hb1len : (((((buf.set 0 'b').set 1 't').set 2 '/').set 3
        nul)).length = buf.length := by simp
    have hb2len : (strncpyAt ((((buf.set 0 'b').set 1 't').set 2 '/').set 3
        nul) 3 subsys (buf.length - 3)).length = buf.length := by
      rw [strncpyAt_length]
      exact hb1len
    have hshape := strncpyAt_eq (buf.length - 3) subsys
      ((((buf.set 0 'b').set 1 't').set 2 '/').set 3 nul) 3
      (by rw [hb1len]; omega)
    rw [show 3 + (buf.length - 3) = buf.length by omega] at hshape
    rw [List.drop_eq_nil_of_le (by rw [hb1len])] at hshape
    have htake3 : ((((buf.set 0 'b').set 1 't').set 2 '/').set 3
        nul).take 3 = ['b', 't', '/'] := by
      rw [take_set_of_le _ _ _ _ (by omega)]
      rw [show (3 : Nat) = 2 + 1 from rfl]
      rw [take_set_succ _ _ _ (by simp; omega)]
      rw [show (2 : Nat) = 1 + 1 from rfl]
      rw [take_set_succ _ _ _ (by simp; omega)]
      rw [show (1 : Nat) = 0 + 1 from rfl]
      rw [take_set_succ _ _ _ (by omega)]
      simp
    rw [htake3, List.append_nil] at hshape
    have hl1free : ∀ c ∈ ['b', 't', '/'] ++ subsys.take (buf.length - 3),
        c ≠ nul := by
      intro c hc
      simp only [List.mem_append, List.mem_cons, List.not_mem_nil,
        or_false] at hc
      rcases hc with (h | h | h) | h
      · subst h; decide
      · subst h; decide
      · subst h; decide
      · exact hns c (List.mem_of_mem_take h)
    have hshape' : strncpyAt ((((buf.set 0 'b').set 1 't').set 2 '/').set 3
        nul) 3 subsys (buf.length - 3) =
        (['b', 't', '/'] ++ subsys.take (buf.length - 3)) ++
          List.replicate (buf.length - 3 - subsys.length) nul := by
      rw [hshape]
    have hcs : cstrLen (strncpyAt ((((buf.set 0 'b').set 1 't').set 2
        '/').set 3 nul) 3 subsys (buf.length - 3)) =
        (['b', 't', '/'] ++ subsys.take (buf.length - 3)).length := by
      rw [hshape']
      exact cstrLen_shape _ _ hl1free
    have htail : tailNul (strncpyAt ((((buf.set 0 'b').set 1 't').set 2
        '/').set 3 nul) 3 subsys (buf.length - 3))
        (cstrLen (strncpyAt ((((buf.set 0 'b').set 1 't').set 2 '/').set 3
          nul) 3 subsys (buf.length - 3))) := by
      rw [hcs, hshape']
      exact tailNul_shape _ _
    have hmain := encTail_good buf.length addr key _ _ hb2len htail
      (by omega)
    simp only [bt_settings_encode_key]
    rw [if_pos h3]
    exact ⟨hmain.1, fun _ => hmain.2, fun h0 => absurd h0 (by omega)⟩
  · by_cases h0 : 0 < buf.length
    · simp only [bt_settings_encode_key]
      rw [if_neg h3, if_pos h0]
      refine ⟨by simp, fun _ => ?_, fun hz => absurd hz (by omega)⟩
      have := cstrLen_le_of_getD_nul _ _ (getD_set_self_nul buf 0)
      omega
    · simp only [bt_settings_encode_key]
      rw [if_neg h3, if_neg h0]
      exact ⟨rfl, fun h1 => absurd h1 (by omega), fun _ => rfl⟩

/-- Witness for C5 (amended), at a concrete small buffer (capacity 7, too
small for the full path), subsystem `"a"`, and no leaf key. -/
theorem encode_key_bounded_witness :
    (bt_settings_encode_key (List.replicate 7 'X') "a".toList
        ⟨0, [0, 0, 0, 0, 0, 255]⟩ none).length = 7 ∧
    cstrLen (bt_settings_encode_key (List.replicate 7 'X') "a".toList
        ⟨0, [0, 0, 0, 0, 0, 255]⟩ none) ≤ 6 := by
  have h := encode_key_bounded (List.replicate 7 'X') "a".toList
    ⟨0, [0, 0, 0, 0, 0, 255]⟩ none (by decide)
  refine ⟨?_, ?_⟩
  · simpa using h.1
  · simpa using h.2.1 (by decide)

/-- Counterexample for C5 as stated: with capacity 7, subsystem `"a"`,
address bytes `[0,0,0,0,0,0xff]` and type 0, the room left after
`"bt/a/"` is 2 bytes, less than the 3 bytes `bin2hex` needs, so every hex
pair is skipped — but the type digit is still appended.  The output string
is `"bt/a/0"`, which is *not* a truncation (prefix) of the full encoding
`"bt/a/ff00000000000"`: the truncated output disagrees with the full path
at position 5. -/
theorem encode_key_truncated_not_full_cex :
    cString (bt_settings_encode_key (List.replicate 7 'X') "a".toList
        ⟨0, [0, 0, 0, 0, 0, 255]⟩ none) = "bt/a/0".toList ∧
    (fullEncoding "a".toList ⟨0, [0, 0, 0, 0, 0, 255]⟩ none).take
        (cString (bt_settings_encode_key (List.replicate 7 'X') "a".toList
          ⟨0, [0, 0, 0, 0, 0, 255]⟩ none)).length ≠
      cString (bt_settings_encode_key (List.replicate 7 'X') "a".toList
        ⟨0, [0, 0, 0, 0, 0, 255]⟩ none) := by
  refine ⟨by decide, by decide⟩

/-! ## Device state, restore dispatcher and bootstrap coordinator -/

/-- The size in bytes of one identity address record
(`sizeof(bt_dev.id_addr[0])` = `sizeof(bt_addr_le_t)` = 1 type byte + 6
address bytes).  Modelled from the spec: "each: 6 raw bytes + 1 type
byte". -/
def idRecSize : Nat := 7

/-- The size in bytes of one IRK record (`sizeof(bt_dev.irk[0])`).
Modelled from the spec: "fixed-size 16-byte secret records". -/
def irkRecSize : Nat := 16

/-- The in-memory width of the appearance field
(`sizeof(bt_dev.appearance)`, a 16-bit value).  Modelled from the spec:
"fixed-size numeric, exact width required". -/
def appearanceSize : Nat := 2

/-- Modelled from the spec: the mutable device state (`struct bt_dev`,
declared outside `src/`) as the dispatcher and coordinator touch it: the
`BT_DEV_ENABLE`, `BT_DEV_PRESET_ID`, `BT_DEV_READY` and `BT_DEV_STORE_ID`
flags, the raw bytes of the identity-address array `id_addr`, the identity
count, the device-name buffer (fixed capacity; content before the first
NUL), the raw bytes of the appearance field, and the raw bytes of the IRK
array. -/
structure BtDev where
  enable : Bool
  presetId : Bool
  ready : Bool
  storeId : Bool
  id_addr : List Nat
  id_count : Nat
  name : List Char
  appearance : List Nat
  irk : List Nat
  deriving DecidableEq, Repr

/-- Events observable from the dispatcher and the coordinator: a `read_cb`
invocation, the two identity-generation requests, the one-time
finalization, and scheduling the deferred persist task
(`bt_settings_save_id`, which submits the coalescing `save_id_work`
item). -/
inductive Ev
  | EvRead
  | EvPubGen
  | EvRandGen
  | EvFinalize
  | EvSaveId
  deriving DecidableEq, Repr

open Ev

/-- A settings value reader (`read_cb` bound to its `cb_arg`): called with
the destination capacity, it returns the `ssize_t` result (bytes read, or
negative on failure) and the bytes it wrote into the destination. -/
abbrev Reader := Nat → Int × List Nat

/-- The C conversion of an `ssize_t` value to `size_t` on the 32-bit
platforms this subsystem targets: reduction modulo `2^32`. -/
def toSizeT (i : Int) : Nat := (i % (2 ^ 32 : Int)).toNat

/-- Overwrite the leading bytes of a fixed-size field with the bytes the
reader produced (a reader honouring its capacity never grows the field). -/
def overwriteBytes (field data : List Nat) : List Nat :=
  data.take field.length ++ field.drop (min data.length field.length)

/-- Same, for the `char` name buffer. -/
def overwriteChars (field : List Char) (data : List Nat) : List Char :=
  (data.map Char.ofNat).take field.length ++
    field.drop (min data.length field.length)

/-- C `strncmp(a, b, n) == 0` on the modelled strings (list end plays the
terminator): compares at most `n` characters, stopping early at a
difference; if one string ends while the other continues within the first
`n` characters, they differ. -/
def strncmpZ : List Char → List Char → Nat → Bool
  | _, _, 0 => true
  | [], [], _ + 1 => true
  | [], _ :: _, _ + 1 => false
  | _ :: _, [], _ + 1 => false
  | a :: as, b :: bs, n + 1 => if a = b then strncmpZ as bs n else false

/-- `set_setting` (settings.c lines 117-229): the restore dispatcher.  All
conditionally-compiled fields (`CONFIG_BT_DEVICE_NAME_DYNAMIC`,
`CONFIG_BT_DEVICE_APPEARANCE_DYNAMIC`, `CONFIG_BT_PRIVACY`) are present, as
the spec describes them.  Returns the C return value, the new device state,
and the observable events (the reader invocations).  The `name == NULL`
guard of the C code has no counterpart (a modelled key is always a string).

Note on the `id` and `irk` branches: the C code compares the `ssize_t`
result of `read_cb` against a `size_t` `sizeof(...)`; by C's usual
arithmetic conversions (operands of equal rank) this is an UNSIGNED
comparison, modelled with `toSizeT` — so a negative read result does *not*
enter the short-read branch, and the inner `len < 0` error logs in those
branches are unreachable.  The `name` and `appearance` branches compare
`len < 0` directly (signed, no conversion). -/
def set_setting (name : List Char) (len_rd : Nat) (reader : Reader)
    (dev : BtDev) : Int × BtDev × List Ev :=
  if dev.enable = false then (0, dev, []) else
  let len := settings_name_next name
  if strncmpZ name "id".toList len then
    if dev.presetId then (0, dev, []) else
    let rd := reader dev.id_addr.length
    let d1 := { dev with id_addr := overwriteBytes dev.id_addr rd.2 }
    if toSizeT rd.1 < idRecSize then
      (0, { d1 with
              id_addr := List.replicate dev.id_addr.length 0,
              id_count := 0 }, [EvRead])
    else
      (0, { d1 with id_count := toSizeT rd.1 / idRecSize }, [EvRead])
  else if strncmpZ name "name".toList len then
    let rd := reader (dev.name.length - 1)
    let d1 := { dev with name := overwriteChars dev.name rd.2 }
    if rd.1 < 0 then (0, d1, [EvRead])
    else (0, { d1 with name := d1.name.set rd.1.toNat nul }, [EvRead])
  else if strncmpZ name "appearance".toList len then
    if len_rd ≠ appearanceSize then (-EINVAL, dev, []) else
    let rd := reader appearanceSize
    let d1 := { dev with appearance := overwriteBytes dev.appearance rd.2 }
    if rd.1 < 0 then (rd.1, d1, [EvRead]) else (0, d1, [EvRead])
  else if strncmpZ name "irk".toList len then
    let rd := reader dev.irk.length
    let d1 := { dev with irk := overwriteBytes dev.irk rd.2 }
    if toSizeT rd.1 < irkRecSize then
      if rd.1 < 0 then (0, d1, [EvRead])
      else (0, { d1 with irk := List.replicate dev.irk.length 0 }, [EvRead])
    else (0, d1, [EvRead])
  else (-ENOENT, dev, [])

/-- Modelled from the spec: the `CONFIG_BT_DEVICE_NAME` compiled default
name. -/
def defaultName : List Char := "Zephyr".toList

/-- Modelled from the spec: `bt_set_name` at the compiled default
(collaborator outside `src/`) — coordinator step 1 sets the device name to
the compiled default when it is still empty; only the name buffer is
touched. -/
def bt_set_name_default (d : BtDev) : BtDev :=
  { d with name := strncpyAt d.name 0 defaultName d.name.length }

/-- Modelled from the spec: `bt_finalize_init` (collaborator outside
`src/`) — the one-time finalization that marks the stack ready. -/
def bt_finalize_init (d : BtDev) : BtDev := { d with ready := true }

/-- Step 1 of the coordinator (`if (bt_dev.name[0] == '\0')
bt_set_name(CONFIG_BT_DEVICE_NAME)` under `CONFIG_BT_DEVICE_NAME_DYNAMIC`):
set the compiled default name when the name is still empty. -/
def afterNameStep (dev : BtDev) : BtDev :=
  if dev.name.getD 0 nul = nul then bt_set_name_default dev else dev

/-- `commit_settings` (settings.c lines 258-308): the bootstrap
coordinator, parameterized over the two identity-generation collaborators
(`bt_setup_public_id_addr` and `bt_setup_random_id_addr`, outside `src/`),
each of which may transform the device state and returns a C error code.
Returns the C return value, the final state, and the ordered events. -/
def commit_settings (pub rnd : BtDev → Int × BtDev) (dev : BtDev) :
    Int × BtDev × List Ev :=
  if dev.enable = false then (0, dev, []) else
  let d1 := afterNameStep dev
  let s2 : (Int × BtDev) × List Ev :=
    if d1.id_count = 0 then (pub d1, [EvPubGen]) else ((0, d1), [])
  if s2.1.1 ≠ 0 then (s2.1.1, s2.1.2, s2.2) else
  let d2 := s2.1.2
  let s3 : (Int × BtDev) × List Ev :=
    if d2.id_count = 0 then (rnd d2, s2.2 ++ [EvRandGen]) else ((0, d2), s2.2)
  if s3.1.1 ≠ 0 then (s3.1.1, s3.1.2, s3.2) else
  let d3 := s3.1.2
  let s4 : BtDev × List Ev :=
    if d3.ready = false then (bt_finalize_init d3, s3.2 ++ [EvFinalize])
    else (d3, s3.2)
  let s5 : BtDev × List Ev :=
    if s4.1.storeId then
      ({ s4.1 with storeId := false }, s4.2 ++ [EvSaveId])
    else (s4.1, s4.2)
  (0, s5.1, s5.2)

/-- Modelled from the spec: the settings store's load pass (collaborator
outside `src/`) invokes the dispatcher once per persisted key, collecting
the per-key results, and never stops early. -/
def loadPass : List (List Char × Nat × Reader) → BtDev → BtDev × List Int
  | [], dev => (dev, [])
  | (n, lr, rd) :: rest, dev =>
    let r := set_setting n lr rd dev
    let t := loadPass rest r.2.1
    (t.1, r.1 :: t.2)

/-- The load pass visits every key: one per-key result per persisted key,
regardless of which results are errors or `-ENOENT`. -/
lemma loadPass_length : ∀ (keys : List (List Char × Nat × Reader))
    (dev : BtDev), (loadPass keys dev).2.length = keys.length := by
  intro keys
  induction keys with
  | nil => intro dev; rfl
  | cons kv rest ih =>
    intro dev
    obtain ⟨n, lr, rd⟩ := kv
    simp [loadPass, ih]

/-- A concrete enabled device state used by witnesses (capacity for three
identity records, a 10-byte name buffer, two IRK slots). -/
def devW : BtDev :=
  { enable := true, presetId := false, ready := false, storeId := false,
    id_addr := List.replicate 21 7, id_count := 2,
    name := 'x' :: 'y' :: List.replicate 8 (Char.ofNat 0),
    appearance := [1, 2], irk := List.replicate 32 5 }

/-- `devW` with the enable flag clear, for the disabled-gate witnesses. -/
def devDisabled : BtDev := { devW with enable := false }

/-! ## C10: dispatcher gated on the enable flag -/

/-- C10.  The restore dispatcher is gated on the same stack-enabled
precondition (`BT_DEV_ENABLE`) as the bootstrap coordinator: if the flag is
clear, `set_setting` returns success (0) for every key name, payload
length and reader, modifies no in-memory state, and never invokes the
value reader — persisted values enumerated before the stack is enabled are
silently skipped rather than restored. -/
theorem set_setting_disabled_noop (name : List Char) (len_rd : Nat)
    (reader : Reader) (dev : BtDev) (h : dev.enable = false) :
    set_setting name len_rd reader dev = (0, dev, []) := by
  rw [set_setting, if_pos h]

/-- Witness for C10 at a concrete state and key. -/
theorem set_setting_disabled_noop_witness :
    set_setting "id".toList 14 (fun _ => (14, List.replicate 14 1))
      devDisabled = (0, devDisabled, []) :=
  set_setting_disabled_noop "id".toList 14 (fun _ => (14, List.replicate 14 1))
    devDisabled rfl

/-! ## C9: coordinator deferred no-op before enable -/

/-- C9.  If the bootstrap coordinator runs while the stack-enabled flag is
false, it returns success (0) and performs no state change whatsoever: no
device field is written, no identity generation is requested, no
finalization and no persist-task scheduling happens (the event list is
empty). -/
theorem commit_settings_disabled_noop (pub rnd : BtDev → Int × BtDev)
    (dev : BtDev) (h : dev.enable = false) :
    commit_settings pub rnd dev = (0, dev, []) := by
  rw [commit_settings, if_pos h]

/-- A public-identity generator for witnesses: declines (returns 0 without
creating an identity). -/
def pubW : BtDev → Int × BtDev := fun d => (0, d)

/-- A random-identity generator for witnesses: succeeds, creating one
identity and flagging it for storage. -/
def rndW : BtDev → Int × BtDev :=
  fun d => (0, { d with id_count := 1, storeId := true })

/-- Witness for C9 at a concrete state and collaborators. -/
theorem commit_settings_disabled_noop_witness :
    commit_settings pubW rndW devDisabled = (0, devDisabled, []) :=
  commit_settings_disabled_noop pubW rndW devDisabled rfl

/-! ## C7: appearance shape check before reading -/

/-- C7.  When the dispatcher handles key `"appearance"` and the persisted
payload length differs from the exact in-memory width of the appearance
field, it returns `-EINVAL` without invoking the value reader (no read
event), and the in-memory appearance value — indeed the whole device
state — is unchanged. -/
theorem set_setting_appearance_length_guard (len_rd : Nat) (reader : Reader)
    (dev : BtDev) (hen : dev.enable = true)
    (hlen : len_rd ≠ appearanceSize) :
    set_setting "appearance".toList len_rd reader dev = (-EINVAL, dev, []) := by
  simp only [set_setting]
  rw [if_neg (by simp [hen])]
  rw [if_neg (by decide), if_neg (by decide), if_pos (by decide)]
  rw [if_pos hlen]

/-- Witness for C7: payload length 3 instead of 2. -/
theorem set_setting_appearance_length_guard_witness :
    set_setting "appearance".toList 3 (fun _ => (2, [9, 9])) devW =
      (-EINVAL, devW, []) :=
  set_setting_appearance_length_guard 3 (fun _ => (2, [9, 9])) devW rfl
    (by decide)

/-! ## C4: `id` restore lengths (code bug on negative reads) -/

/-- C4 (code bug).  The claim and the spec say a failed (negative-length)
read of `"id"` takes the fail-safe branch: zero the identity array, set the
count to 0, return success.  The code instead compares the `ssize_t` read
result with the `size_t` record size, which C evaluates as an UNSIGNED
comparison, so `len = -1` becomes `2^32 - 1`, the short-read branch is
skipped (its `len < 0` error path is dead code), and the success branch
computes `id_count = (2^32 - 1) / 7 = 613566756` while leaving the array
bytes as the failed read left them.  This theorem evaluates the dispatcher
at the failing input. -/
theorem set_setting_id_negative_read_eval :
    set_setting "id".toList 0 (fun _ => (-1, [])) devW =
      (0, { devW with id_count := 613566756 }, [Ev.EvRead]) := by decide

/-! ## C8: `name` restore -/

/-- Counterexample for C8: a negative read while restoring `"name"` is
*not* reported as an error in the dispatcher's return value — the
dispatcher returns success (0) for that key (the failure is only
logged). -/
theorem set_setting_name_negative_read_returns_zero_cex :
    set_setting "name".toList 5 (fun _ => (-3, [])) devW =
      (0, devW, [Ev.EvRead]) := by decide

/-- C8 (amended).  When the dispatcher handles key `"name"`, it reads with
capacity one less than the name buffer's size; a non-negative read of
length `L` stores the read bytes into the name buffer and NUL-terminates
at index `L`; a negative read result leaves the device name untouched
(given the reader's contract of writing nothing on failure) and the
dispatcher returns success (0) — the failure is logged but *not* reported
in the return value — and in either case the rest of the restore pass is
not aborted (a load pass whose first key is this one still visits every
remaining key). -/
theorem set_setting_name_restore (len_rd : Nat) (reader : Reader)
    (dev : BtDev) (hen : dev.enable = true)
    (hfail : (reader (dev.name.length - 1)).1 < 0 →
      (reader (dev.name.length - 1)).2 = []) :
    ((reader (dev.name.length - 1)).1 < 0 →
      set_setting "name".toList len_rd reader dev = (0, dev, [Ev.EvRead])) ∧
    (0 ≤ (reader (dev.name.length - 1)).1 →
      set_setting "name".toList len_rd reader dev =
        (0, { dev with
                name := (overwriteChars dev.name
                  (reader (dev.name.length - 1)).2).set
                  (reader (dev.name.length - 1)).1.toNat nul },
          [Ev.EvRead])) ∧
    (∀ rest dv, (loadPass (("name".toList, len_rd, reader) :: rest)
      dv).2.length = rest.length + 1) := by
  have hroute : ∀ P : (Int × BtDev × List Ev) → Prop,
      P (let rd := reader (dev.name.length - 1)
         let d1 := { dev with name := overwriteChars dev.name rd.2 }
         if rd.1 < 0 then (0, d1, [Ev.EvRead])
         else (0, { d1 with name := d1.name.set rd.1.toNat nul },
           [Ev.EvRead])) →
      P (set_setting "name".toList len_rd reader dev) := by
    intro P h
    simp only [set_setting]
    rw [if_neg (by simp [hen])]
    rw [if_neg (by decide), if_pos (by decide)]
    exact h
  refine ⟨?_, ?_, ?_⟩
  · intro hneg
    refine hroute (fun r => r = (0, dev, [Ev.EvRead])) ?_
    dsimp only
    rw [if_pos hneg, hfail hneg]
    simp [overwriteChars]
  · intro hpos
    refine hroute (fun r => r = (0, { dev with
      name := (overwriteChars dev.name
        (reader (dev.name.length - 1)).2).set
        (reader (dev.name.length - 1)).1.toNat nul }, [Ev.EvRead])) ?_
    dsimp only
    rw [if_neg (by omega)]
  · intro rest dv
    exact loadPass_length _ _

/-! ## C3: bootstrap identity guarantee -/

lemma afterNameStep_id_count (dev : BtDev) :
    (afterNameStep dev).id_count = dev.id_count := by
  rw [afterNameStep]
  split <;> rfl

/-- C3.  With the stack-enabled flag set: when the identity count is zero
the coordinator first requests public-type identity generation; if the
count is still zero after a successful public generation it requests
random-type generation; whenever a generation call fails the coordinator
returns that collaborator's error code and performs none of the remaining
steps (the event list ends at the failing generation).  Under the
hypothesis that a successful random-type generation leaves the count
nonzero, a successful (zero) return never leaves zero identities. -/
theorem commit_settings_identity_guarantee
    (pub rnd : BtDev → Int × BtDev) (dev : BtDev)
    (hen : dev.enable = true)
    (hrnd : ∀ d, (rnd d).1 = 0 → (rnd d).2.id_count ≠ 0) :
    ((commit_settings pub rnd dev).1 = 0 →
      (commit_settings pub rnd dev).2.1.id_count ≠ 0) ∧
    (dev.id_count = 0 →
      Ev.EvPubGen ∈ (commit_settings pub rnd dev).2.2 ∧
      ((pub (afterNameStep dev)).1 ≠ 0 →
        commit_settings pub rnd dev =
          ((pub (afterNameStep dev)).1, (pub (afterNameStep dev)).2,
            [Ev.EvPubGen])) ∧
      ((pub (afterNameStep dev)).1 = 0 →
        (pub (afterNameStep dev)).2.id_count = 0 →
        Ev.EvRandGen ∈ (commit_settings pub rnd dev).2.2 ∧
        ((rnd (pub (afterNameStep dev)).2).1 ≠ 0 →
          commit_settings pub rnd dev =
            ((rnd (pub (afterNameStep dev)).2).1,
             (rnd (pub (afterNameStep dev)).2).2,
             [Ev.EvPubGen, Ev.EvRandGen])))) := by
  have hd1c := afterNameStep_id_count dev
  simp only [commit_settings]
  rw [if_neg (by simp [hen])]
  by_cases h0 : (afterNameStep dev).id_count = 0
  · rw [if_pos h0]
    try dsimp only
    by_cases hperr : (pub (afterNameStep dev)).1 ≠ 0
    · rw [if_pos hperr]
      exact ⟨fun hz => absurd hz hperr, fun _ => ⟨by simp, fun _ => rfl,
        fun hz _ => absurd hz hperr⟩⟩
    · rw [if_neg hperr]
      rw [not_ne_iff] at hperr
      try dsimp only
      by_cases h2 : (pub (afterNameStep dev)).2.id_count = 0
      · rw [if_pos h2]
        try dsimp only
        by_cases hrerr : (rnd (pub (afterNameStep dev)).2).1 ≠ 0
        · rw [if_pos hrerr]
          refine ⟨fun hz => absurd hz hrerr, fun _ =>
            ⟨by simp, fun hc => absurd hperr hc, fun _ _ =>
              ⟨by simp, fun _ => by simp⟩⟩⟩
        · rw [if_neg hrerr]
          rw [not_ne_iff] at hrerr
          try dsimp only
          have hnz := hrnd _ hrerr
          constructor
          · intro _
            split <;> split <;> simp [bt_finalize_init, hnz]
          · intro _
            refine ⟨?_, fun hc => absurd hperr hc, fun _ _ =>
              ⟨?_, fun hc => absurd hrerr hc⟩⟩
            · split <;> split <;> simp
            · split <;> split <;> simp
      · rw [if_neg h2]
        try dsimp only
        rw [if_neg (by simp)]
        try dsimp only
        constructor
        · intro _
          split <;> split <;> simp [bt_finalize_init, h2]
        · intro _
          refine ⟨?_, fun hc => absurd hperr hc, fun _ hc => absurd hc h2⟩
          split <;> split <;> simp
  · rw [if_neg h0]
    try dsimp only
    rw [if_neg (by simp)]
    try dsimp only
    rw [if_neg h0]
    try dsimp only
    rw [if_neg (by simp)]
    try dsimp only
    constructor
    · intro _
      split <;> split <;> simp [bt_finalize_init, h0]
    · intro hdev
      exact absurd (by rw [hd1c]; exact hdev) h0

/-- Witness for C3 at concrete collaborators (public generation declines,
random generation succeeds with one identity) and a concrete enabled state
with zero identities. -/
theorem commit_settings_identity_guarantee_witness :
    ((commit_settings pubW rndW { devW with id_count := 0 }).1 = 0 →
      (commit_settings pubW rndW
        { devW with id_count := 0 }).2.1.id_count ≠ 0) ∧
    ({ devW with id_count := 0 } : BtDev).id_count = 0 ∧
    Ev.EvPubGen ∈ (commit_settings pubW rndW
      { devW with id_count := 0 }).2.2 := by
  have h := commit_settings_identity_guarantee pubW rndW
    { devW with id_count := 0 } rfl
    (fun d _ => by simp [rndW])
  exact ⟨h.1, rfl, (h.2 rfl).1⟩

/-! ## C6: dispatcher routing -/

lemma snn_le_length : ∀ l : List Char, settings_name_next l ≤ l.length := by
  intro l
  induction l with
  | nil => simp [settings_name_next]
  | cons c r ih =>
    rw [settings_name_next]
    split
    · simp
    · simp
      omega

/-- C `strncmp(a, b, n) == 0` characterized (for `n` within `a`): it holds
iff the first `n` characters agree and `b` is at least `n` long — i.e. with
`n` the length of `a`'s first path segment, iff that segment is a prefix
of `b`. -/
lemma strncmpZ_iff : ∀ (n : Nat) (a b : List Char), n ≤ a.length →
    (strncmpZ a b n = true ↔ (n ≤ b.length ∧ a.take n = b.take n)) := by
  intro n
  induction n with
  | zero => intro a b _; simp [strncmpZ]
  | succ n ih =>
    intro a b hn
    match a with
    | [] => simp at hn
    | x :: as =>
      match b with
      | [] => simp [strncmpZ]
      | y :: bs =>
        rw [strncmpZ]
        by_cases hxy : x = y
        · rw [if_pos hxy]
          rw [ih as bs (by simpa using hn)]
          subst hxy
          simp
        · rw [if_neg hxy]
          simp [hxy]

/-- The first path segment of `name` is a (possibly empty, possibly full)
prefix of the literal `lit`. -/
def segIsPrefixOf (name lit : List Char) : Prop :=
  settings_name_next name ≤ lit.length ∧
  name.take (settings_name_next name) = lit.take (settings_name_next name)

instance (name lit : List Char) : Decidable (segIsPrefixOf name lit) := by
  unfold segIsPrefixOf
  infer_instance

/-- Counterexample for C6: the first segment `"i"` is not equal to any of
`"id"`, `"name"`, `"appearance"`, `"irk"`, yet the dispatcher routes it to
the `id` handler (the routing `strncmp(name, "id", len)` stops after
`len = 1` characters): the result is success (0), not `-ENOENT`, the
reader is invoked, and the identity state is modified (a short read then
zeroes the array and the count). -/
theorem set_setting_proper_prefix_routes_cex :
    set_setting "i".toList 0 (fun _ => (0, [])) devW =
      (0, { devW with
              id_addr := List.replicate 21 0,
              id_count := 0 }, [Ev.EvRead]) := by decide

/-- C6 (amended).  With the stack enabled, the dispatcher routes a key to a
field handler iff the key's first path segment is a *prefix* of one of
`"id"`, `"name"`, `"appearance"`, `"irk"` (exact matches included; ties
resolved in that order; the `strncmp` bound is the segment length, which is
why proper prefixes also match): for any other first segment it returns the
distinct not-found code `-ENOENT` with the state unmodified and no reader
invoked, and conversely every prefix-matching segment is routed (the result
is never that untouched `-ENOENT` triple).  A not-found result does not
abort the remaining keys of the load pass (the pass visits every key). -/
theorem set_setting_routing_characterization (name : List Char)
    (len_rd : Nat) (reader : Reader) (dev : BtDev)
    (hen : dev.enable = true) :
    ((¬ (segIsPrefixOf name "id".toList ∨ segIsPrefixOf name "name".toList ∨
        segIsPrefixOf name "appearance".toList ∨
        segIsPrefixOf name "irk".toList)) ↔
      set_setting name len_rd reader dev = (-ENOENT, dev, [])) ∧
    (∀ keys dv, (loadPass keys dv).2.length = keys.length) := by
  have hn := snn_le_length name
  have hid := strncmpZ_iff (settings_name_next name) name "id".toList hn
  have hnm := strncmpZ_iff (settings_name_next name) name "name".toList hn
  have hap := strncmpZ_iff (settings_name_next name) name
    "appearance".toList hn
  have hirk := strncmpZ_iff (settings_name_next name) name "irk".toList hn
  constructor
  · simp only [set_setting]
    rw [if_neg (by simp [hen])]
    constructor
    · intro hnot
      push_neg at hnot
      rw [if_neg (fun hc => hnot.1 (hid.mp hc)),
        if_neg (fun hc => hnot.2.1 (hnm.mp hc)),
        if_neg (fun hc => hnot.2.2.1 (hap.mp hc)),
        if_neg (fun hc => hnot.2.2.2 (hirk.mp hc))]
    · intro heq
      intro hroute
      rcases hroute with h | h | h | h
      · rw [if_pos (hid.mpr h)] at heq
        by_cases hp : dev.presetId
        · rw [if_pos hp] at heq
          simp [ENOENT] at heq
        · rw [if_neg hp] at heq
          split at heq <;> simp [ENOENT] at heq
      · by_cases hc1 : strncmpZ name "id".toList (settings_name_next name) =
            true
        · rw [if_pos hc1] at heq
          by_cases hp : dev.presetId
          · rw [if_pos hp] at heq
            simp [ENOENT] at heq
          · rw [if_neg hp] at heq
            split at heq <;> simp [ENOENT] at heq
        · rw [if_neg hc1, if_pos (hnm.mpr h)] at heq
          split at heq <;> simp [ENOENT] at heq
      · by_cases hc1 : strncmpZ name "id".toList (settings_name_next name) =
            true
        · rw [if_pos hc1] at heq
          by_cases hp : dev.presetId
          · rw [if_pos hp] at heq
            simp [ENOENT] at heq
          · rw [if_neg hp] at heq
            split at heq <;> simp [ENOENT] at heq
        · rw [if_neg hc1] at heq
          by_cases hc2 : strncmpZ name "name".toList
              (settings_name_next name) = true
          · rw [if_pos hc2] at heq
            split at heq <;> simp [ENOENT] at heq
          · rw [if_neg hc2, if_pos (hap.mpr h)] at heq
            by_cases hl : len_rd ≠ appearanceSize
            · rw [if_pos hl] at heq
              simp [ENOENT, EINVAL] at heq
            · rw [if_neg hl] at heq
              split at heq <;> simp [ENOENT] at heq
      · by_cases hc1 : strncmpZ name "id".toList (settings_name_next name) =
            true
        · rw [if_pos hc1] at heq
          by_cases hp : dev.presetId
          · rw [if_pos hp] at heq
            simp [ENOENT] at heq
          · rw [if_neg hp] at heq
            split at heq <;> simp [ENOENT] at heq
        · rw [if_neg hc1] at heq
          by_cases hc2 : strncmpZ name "name".toList
              (settings_name_next name) = true
          · rw [if_pos hc2] at heq
            split at heq <;> simp [ENOENT] at heq
          · rw [if_neg hc2] at heq
            by_cases hc3 : strncmpZ name "appearance".toList
                (settings_name_next name) = true
            · rw [if_pos hc3] at heq
              by_cases hl : len_rd ≠ appearanceSize
              · rw [if_pos hl] at heq
                simp [ENOENT, EINVAL] at heq
              · rw [if_neg hl] at heq
                split at heq <;> simp [ENOENT] at heq
            · rw [if_neg hc3, if_pos (hirk.mpr h)] at heq
              split at heq
              · split at heq <;> simp [ENOENT] at heq
              · simp [ENOENT] at heq
  · intro keys dv
    exact loadPass_length keys dv

/-- Witness for C6 (amended): the key `"foo"` matches no handler name and
yields the untouched `-ENOENT` result. -/
theorem set_setting_routing_characterization_witness :
    set_setting "foo".toList 0 (fun _ => (0, [])) devW =
      (-ENOENT, devW, []) :=
  ((set_setting_routing_characterization "foo".toList 0 (fun _ => (0, []))
    devW rfl).1).mp (by decide)

/-- Witness for C8 (amended), with a successful 2-byte read. -/
theorem set_setting_name_restore_witness :
    set_setting "name".toList 2 (fun _ => (2, [97, 98])) devW =
      (0, { devW with
        name := (overwriteChars devW.name [97, 98]).set 2 nul },
        [Ev.EvRead]) := by
  have h := set_setting_name_restore 2 (fun _ => (2, [97, 98])) devW rfl
    (by intro h; simp at h)
  exact h.2.1 (by decide)

end ZephyrBtSettings
